import Mathlib

/-!
Shallow embedding of `upnpport` (src/upnpport/__main__.py): the rule data
model (`Config`), the `upnpc -l` output parser (`get_existing_rules`), the
reconciliation pass (`open_ports`) and the run loop (`run`), together with
theorems settling the specification's claims about them.

Strings coming from the external tool are modelled over ASCII: Python's
`\s`, `\d`, `str.lower` and `int` also accept some non-ASCII characters,
which never occur in `upnpc` output; Python 3.6+ `int` additionally accepts
single underscores between digits, which `pyInt` mirrors.
-/

namespace Upnpport

/-- ASCII whitespace, the characters Python's regex `\s` matches on ASCII text. -/
def isSpace (c : Char) : Bool :=
  c = ' ' || c = '\t' || c = '\n' || c = '\r' || c = '\x0b' || c = '\x0c'

/-- `str.lower` on ASCII text (protocol tokens such as "TCP"). -/
def pyLower (s : String) : String :=
  ⟨s.data.map Char.toLower⟩

/-- Digits of a Python `int` literal after the first: digits with single
underscores allowed only between digits, accumulating the value. -/
def digitsCore : List Char → Nat → Option Nat
  | [], acc => some acc
  | '_' :: c :: rest, acc =>
    if c.isDigit then digitsCore rest (acc * 10 + (c.toNat - 48)) else none
  | c :: rest, acc =>
    if c.isDigit then digitsCore rest (acc * 10 + (c.toNat - 48)) else none

/-- A nonempty digit string (first character must be a digit). -/
def parseDigits : List Char → Option Nat
  | [] => none
  | c :: rest => if c.isDigit then digitsCore rest (c.toNat - 48) else none

/-- Python's `int(s)` on a whitespace-free token: optional sign, then digits. -/
def pyInt (s : String) : Option Int :=
  match s.data with
  | '+' :: rest => (parseDigits rest).map Int.ofNat
  | '-' :: rest => (parseDigits rest).map (fun n => -(n : Int))
  | cs => (parseDigits cs).map Int.ofNat

/-- `re.match(r'.*\d->', line)` succeeds: some digit immediately followed by
`->`, with no newline before it (`.` does not match a newline and `re.match`
anchors at the start). Used by `keep_lines` in the source. -/
def keepMatch : List Char → Bool
  | c1 :: c2 :: c3 :: rest =>
    (c1.isDigit && c2 = '-' && c3 = '>') || (c1 ≠ '\n' && keepMatch (c2 :: c3 :: rest))
  | _ => false

/-- `re.split(r'\s+|->|:', s)`: scan left to right, splitting at each maximal
whitespace run, at each `->` and at each `:`. `acc` holds the current token
reversed; `inSpace` records that the previous character extended a whitespace
run, so a maximal run yields a single split. -/
def pySplitAux : List Char → List Char → Bool → List String
  | [], acc, _ => [⟨acc.reverse⟩]
  | '-' :: '>' :: rest, acc, _ => (⟨acc.reverse⟩ : String) :: pySplitAux rest [] false
  | ':' :: rest, acc, _ => (⟨acc.reverse⟩ : String) :: pySplitAux rest [] false
  | c :: rest, acc, inSpace =>
    if isSpace c then
      if inSpace then pySplitAux rest acc true
      else (⟨acc.reverse⟩ : String) :: pySplitAux rest [] true
    else pySplitAux rest (c :: acc) false

def pySplit (s : String) : List String :=
  pySplitAux s.data [] false

/-- A forwarding rule as the source's dicts hold it: `external_port` is
present only when it differs from `port`. Models both the dicts yielded by
`Config.__iter__` and those built by `get_existing_rules`. -/
structure Rule where
  port : Int
  protocol : String
  external_port : Option Int
deriving DecidableEq, Repr

/-- The exceptions `get_existing_rules` can raise per line: `IndexError` from
`rule_str_split[4]`, `ValueError` from `int(...)` (the spec's
`ProtocolParseError`). -/
inductive PErr where
  | indexError
  | valueError
deriving DecidableEq, Repr

/-- The token list of one kept line: `re.split(r'\s+|->|:', rule_str)`, with
the first token deleted when empty. -/
def lineTokens (l : String) : List String :=
  let t := pySplit l
  if t.head? = some "" then t.tail else t

/-- The body of `get_existing_rules`'s loop for one line:
`{'port': int(t[4]), 'protocol': t[1].lower()}`, plus
`external_port = int(t[2])` when it differs from the port. `t[4]` raises
`IndexError` when the token list has fewer than five entries (then `t[1]` and
`t[2]` exist whenever `t[4]` does); `int` raises `ValueError` on a
non-integer token. -/
def parseLine (l : String) : Except PErr Rule :=
  if 4 < (lineTokens l).length then
    match pyInt ((lineTokens l).getD 4 "") with
    | none => .error .valueError
    | some port =>
      match pyInt ((lineTokens l).getD 2 "") with
      | none => .error .valueError
      | some ext =>
        .ok { port := port, protocol := pyLower ((lineTokens l).getD 1 ""),
              external_port := if ext ≠ port then some ext else none }
  else .error .indexError

/-- Sequential accumulation with exception propagation, as the source's
`for ... rules.append(...)` loop behaves under a raised exception. -/
def exceptMapM (f : α → Except ε β) : List α → Except ε (List β)
  | [] => .ok []
  | x :: xs =>
    match f x with
    | .error e => .error e
    | .ok y =>
      match exceptMapM f xs with
      | .error e => .error e
      | .ok ys => .ok (y :: ys)

/-- `get_existing_rules`, given the lines of the tool's list output
(`call('upnpc','-l')` decoded and split on newlines): keep the lines matching
`.*\d->` and parse each. -/
def get_existing_rules (output : List String) : Except PErr (List Rule) :=
  exceptMapM parseLine (output.filter (fun l => keepMatch l.data))

/-- `Config._rules`: a mapping from `(port, protocol)` to the stored
`external_port`, in insertion order (Python dicts preserve it). -/
abbrev RulesMap := List ((Int × String) × Int)

/-- Python dict assignment `m[k] = v`: replace in place when the key exists
(keeping its position), append otherwise. -/
def dictInsert (m : RulesMap) (k : Int × String) (v : Int) : RulesMap :=
  if m.any (fun kv => kv.1 = k) then
    m.map (fun kv => if kv.1 = k then (k, v) else kv)
  else m ++ [(k, v)]

/-- `external_port or port`: Python `or` takes `port` when `external_port` is
`None` or `0` (falsy). -/
def orDefault (external_port : Option Int) (port : Int) : Int :=
  match external_port with
  | none => port
  | some v => if v = 0 then port else v

/-- `Config.add`. -/
def Config.add (m : RulesMap) (port : Int) (external_port : Option Int)
    (protocol : String) : RulesMap :=
  dictInsert m (port, protocol) (orDefault external_port port)

/-- `Config.__iter__`: one dict per stored rule, with `external_port` included
only when it differs from `port`. -/
def configIter (m : RulesMap) : List Rule :=
  m.map (fun kv =>
    { port := kv.1.1, protocol := kv.1.2,
      external_port := if kv.1.1 ≠ kv.2 then some kv.2 else none })

/-- One record of the parsed desired-state file: `rule['port']` and
`rule['protocol']` raise `KeyError` when absent (`none`), while
`rule.get('external_port')` silently yields `None`. -/
structure RecordY where
  port : Option Int
  protocol : Option String
  external_port : Option Int
deriving DecidableEq, Repr

/-- The loop of `Config.parse_rules`: add each record in order; a record with
a missing `port` or `protocol` key raises (`Bool` flag), leaving the map as
built so far. -/
def addAll : RulesMap → List RecordY → RulesMap × Bool
  | m, [] => (m, false)
  | m, r :: rest =>
    match r.port, r.protocol with
    | some p, some proto => addAll (Config.add m p r.external_port proto) rest
    | _, _ => (m, true)

/-- `Config.parse_rules`: reset to `{}`, then add every record of the parsed
file content. `none` content stands for a file that cannot be opened
(`FileNotFoundError`, caught) or an empty/falsy YAML document: both leave the
freshly reset empty map. -/
def parse_rules (content : Option (List RecordY)) : RulesMap × Bool :=
  match content with
  | none => ([], false)
  | some recs => addAll [] recs

/-- The environment one reconciliation pass runs against: whether the `upnpc`
executable can be found, and the lines its list operation prints. -/
structure Env where
  toolAvailable : Bool
  listOutput : List String

/-- The faults a pass can raise: `call`'s `RuntimeError` for a missing
executable, and the parse exceptions of `get_existing_rules`. -/
inductive Fault where
  | toolUnavailable
  | protocolParseError (e : PErr)
deriving DecidableEq, Repr

/-- The list invocation `['upnpc', '-l']`. -/
def listCommand : List String :=
  ["upnpc", "-l"]

/-- The add invocation built by `open_ports` for one missing rule:
`['upnpc', '-r', str(port)]`, the external port only when the dict carries
one, then the protocol. -/
def applyCommand (rule : Rule) : List String :=
  ["upnpc", "-r", toString rule.port]
    ++ (match rule.external_port with
        | some e => [toString e]
        | none => []) ++ [rule.protocol]

/-- `open_ports`: one reconciliation pass. Returns the attempted tool
invocations in order and either the rules applied or the fault that aborted
the pass. Membership `rule in existing_rules` is Python dict equality, i.e.
structural equality of `Rule`. -/
def open_ports (env : Env) (rules : List Rule) :
    List (List String) × Except Fault (List Rule) :=
  if env.toolAvailable then
    match get_existing_rules env.listOutput with
    | .error e => ([listCommand], .error (.protocolParseError e))
    | .ok existing =>
      let applied := rules.filter (fun r => !(existing.contains r))
      (listCommand :: applied.map applyCommand, .ok applied)
  else ([listCommand], .error .toolUnavailable)

/-- What a SIGUSR1 reload sees: `find_config` finds no file at all
(`RuntimeError`, fatal), or it finds one whose content then parses as
`parse_rules` does. -/
inductive ReloadInput where
  | noConfigFound
  | found (content : Option (List RecordY))
deriving DecidableEq

/-- Effect of one reload on the in-memory rules: the resulting map and
whether an uncaught exception escaped the handler (killing the process). On
`noConfigFound` the map is untouched; on a malformed file it is the partial
map `parse_rules` left behind. -/
def reloadStep (m : RulesMap) : ReloadInput → RulesMap × Bool
  | .noConfigFound => (m, true)
  | .found c => parse_rules c

/-- The complete rule set a reload yields when it succeeds; `none` when the
reload raises. -/
def reloadOk : ReloadInput → Option RulesMap
  | .noConfigFound => none
  | .found c =>
    match parse_rules c with
    | (m, false) => some m
    | (_, true) => none

/-- The events the `run` loop reacts to: a SIGUSR1 reload, one reconciliation
pass against a given environment, and Ctrl-C. -/
inductive Event where
  | reload (inp : ReloadInput)
  | pass (env : Env)
  | interrupt

/-- The `run` loop over a sequence of events, from in-memory rules `m`: logs,
for each pass that executes, the rules map it read, the tool invocations and
the outcome. A pass fault or a reload exception is not caught (only
`KeyboardInterrupt` is), so nothing after it executes. -/
def runTrace (m : RulesMap) :
    List Event → List (RulesMap × List (List String) × Except Fault (List Rule))
  | [] => []
  | .interrupt :: _ => []
  | .reload inp :: rest =>
    match reloadStep m inp with
    | (m', false) => runTrace m' rest
    | (_, true) => []
  | .pass env :: rest =>
    match open_ports env (configIter m) with
    | (cmds, .ok applied) => (m, cmds, .ok applied) :: runTrace m rest
    | (cmds, .error f) => [(m, cmds, .error f)]

/-- A desired-state record with the required `port` key missing: `yaml` can
produce it, and `Config.parse_rules` raises `KeyError` on it. -/
def portlessRecord : RecordY :=
  { port := none, protocol := some "tcp", external_port := none }

instance {ε α : Type} [DecidableEq ε] [DecidableEq α] : DecidableEq (Except ε α) := fun x y =>
  match x, y with
  | .ok a, .ok b =>
    if h : a = b then .isTrue (by rw [h]) else .isFalse (fun hh => h (Except.ok.inj hh))
  | .error e, .error f =>
    if h : e = f then .isTrue (by rw [h]) else .isFalse (fun hh => h (Except.error.inj hh))
  | .ok _, .error _ => .isFalse (fun hh => Except.noConfusion hh)
  | .error _, .ok _ => .isFalse (fun hh => Except.noConfusion hh)

/-- Some `:` followed directly by a digit occurs: the `.*:\d+` tail of the
spec's informal line pattern. -/
def hasColonDigit : List Char → Bool
  | ':' :: d :: rest => d.isDigit || hasColonDigit (d :: rest)
  | _ :: rest => hasColonDigit rest
  | [] => false

/-- The characters after a case-insensitive `TCP` or `UDP` token, `none` when
the text does not start with one. -/
def protoTail : List Char → Option (List Char)
  | c1 :: c2 :: c3 :: rest =>
    if (c1.toLower = 't' && c2.toLower = 'c' && c3.toLower = 'p')
        || (c1.toLower = 'u' && c2.toLower = 'd' && c3.toLower = 'p') then some rest
    else none
  | _ => none

def specShapeArrow : List Char → Bool
  | '-' :: '>' :: rest => hasColonDigit rest
  | _ => false

def specShapeDigits : List Char → Bool
  | d :: rest => d.isDigit && specShapeArrow (rest.dropWhile Char.isDigit)
  | [] => false

def specShapeSpaces : List Char → Bool
  | c :: rest => isSpace c && specShapeDigits (rest.dropWhile isSpace)
  | [] => false

def specShapeProto (cs : List Char) : Bool :=
  match protoTail cs with
  | none => false
  | some rest => specShapeSpaces rest

/-- The line shape the specification claims `listActiveRules` parses,
formalised from its words (informally `\s*\d*\s*(TCP|UDP)\s+\d+->.*:\d+`):
optional leading index, a case-insensitive protocol token, whitespace, the
external port digits, `->`, anything, then `:` and the internal port digits.
Stated from the spec, to be compared with the source's `keepMatch` filter. -/
def specLineShape (s : String) : Bool :=
  specShapeProto (((s.data.dropWhile isSpace).dropWhile Char.isDigit).dropWhile isSpace)

/-- The external port a rule dict denotes: the stored one, or the internal
port when the field is absent. -/
def extPort (r : Rule) : Int :=
  r.external_port.getD r.port

lemma configIter_norm (m : RulesMap) :
    ∀ r ∈ configIter m, ∀ e, r.external_port = some e → e ≠ r.port := by
  intro r hr e he
  simp only [configIter, List.mem_map] at hr
  obtain ⟨kv, _, rfl⟩ := hr
  simp only at he
  split at he
  · cases he
    intro hc
    simp only at hc
    omega
  · cases he

lemma parseLine_norm (l : String) (r : Rule) (h : parseLine l = .ok r) :
    ∀ e, r.external_port = some e → e ≠ r.port := by
  unfold parseLine at h
  split at h
  · cases h4 : pyInt ((lineTokens l).getD 4 "") with
    | none => rw [h4] at h; cases h
    | some port =>
      rw [h4] at h
      cases h2 : pyInt ((lineTokens l).getD 2 "") with
      | none => rw [h2] at h; cases h
      | some ext =>
        rw [h2] at h
        cases h
        intro e he
        simp only at he
        split at he
        · cases he; simpa using by assumption
        · cases he
  · cases h

lemma exceptMapM_ok_forall {α β ε : Type} {f : α → Except ε β} {P : β → Prop}
    (hP : ∀ x y, f x = .ok y → P y) :
    ∀ (L : List α) (rs : List β), exceptMapM f L = .ok rs → ∀ r ∈ rs, P r := by
  intro L
  induction L with
  | nil =>
    intro rs h
    simp only [exceptMapM] at h
    cases h
    simp
  | cons x xs ih =>
    intro rs h
    simp only [exceptMapM] at h
    cases hfx : f x with
    | error e => rw [hfx] at h; cases h
    | ok y =>
      rw [hfx] at h
      cases hm : exceptMapM f xs with
      | error e => rw [hm] at h; cases h
      | ok ys =>
        rw [hm] at h
        cases h
        intro r hrm
        rcases List.mem_cons.mp hrm with rfl | hmem
        · exact hP x r hfx
        · exact ih ys hm r hmem

lemma get_existing_rules_norm (output : List String) (rs : List Rule)
    (h : get_existing_rules output = .ok rs) :
    ∀ r ∈ rs, ∀ e, r.external_port = some e → e ≠ r.port :=
  exceptMapM_ok_forall (fun l r hl => parseLine_norm l r hl) _ rs h

/-- Two rule dicts in normal form (explicit `external_port` only when it
differs from `port`) are equal as soon as their ports, protocols and
effective external ports agree: structural dict equality is equality of the
normalized `(port, protocol, externalPort)` triple. -/
lemma rule_eq_of_norm (a r : Rule)
    (ha : ∀ e, a.external_port = some e → e ≠ a.port)
    (hr : ∀ e, r.external_port = some e → e ≠ r.port)
    (hp : a.port = r.port) (hpr : a.protocol = r.protocol)
    (he : extPort a = extPort r) : a = r := by
  rcases a with ⟨ap, apro, ae⟩
  rcases r with ⟨rp, rpro, re⟩
  simp only at hp hpr
  subst hp hpr
  cases ae with
  | none =>
    cases re with
    | none => rfl
    | some e2 =>
      simp [extPort] at he
      exact absurd he.symm (hr e2 rfl)
  | some e1 =>
    cases re with
    | none =>
      simp [extPort] at he
      exact absurd he (ha e1 rfl)
    | some e2 =>
      simp [extPort] at he
      rw [he]

lemma exceptMapM_error {α β ε : Type} {f : α → Except ε β} {e0 : ε} :
    ∀ L : List α, (∀ x ∈ L, (∃ y, f x = .ok y) ∨ f x = .error e0) →
    (∃ x ∈ L, ∀ y, f x ≠ .ok y) → exceptMapM f L = .error e0 := by
  intro L
  induction L with
  | nil =>
    intro _ hex
    simp at hex
  | cons x xs ih =>
    intro hall hex
    simp only [exceptMapM]
    cases hfx : f x with
    | error e =>
      rcases hall x (List.mem_cons_self x xs) with ⟨y, hy⟩ | he
      · rw [hfx] at hy; cases hy
      · rw [hfx] at he; cases he; rfl
    | ok y =>
      have hin : ∃ z ∈ xs, ∀ w, f z ≠ .ok w := by
        obtain ⟨z, hz, hne⟩ := hex
        rcases List.mem_cons.mp hz with rfl | hzs
        · exact absurd hfx (hne y)
        · exact ⟨z, hzs, hne⟩
      rw [ih (fun z hz => hall z (List.mem_cons_of_mem x hz)) hin]

lemma parseLine_valueError (l : String) (hlen : 4 < (lineTokens l).length)
    (hbad : pyInt ((lineTokens l).getD 4 "") = none
      ∨ pyInt ((lineTokens l).getD 2 "") = none) :
    parseLine l = .error .valueError := by
  unfold parseLine
  rw [if_pos hlen]
  cases hc : pyInt ((lineTokens l).getD 4 "") with
  | none => rfl
  | some port =>
    rcases hbad with hb | hb
    · rw [hc] at hb; cases hb
    · rw [hb]

lemma parseLine_ok_or_valueError (l : String) (hlen : 4 < (lineTokens l).length) :
    (∃ r, parseLine l = .ok r) ∨ parseLine l = .error .valueError := by
  unfold parseLine
  rw [if_pos hlen]
  cases hc : pyInt ((lineTokens l).getD 4 "") with
  | none => right; rfl
  | some port =>
    cases hd : pyInt ((lineTokens l).getD 2 "") with
    | none => right; rfl
    | some ext => left; exact ⟨_, rfl⟩

/-- C3: parsing the list-output line "1 TCP 8080->192.168.1.5:80" yields the
rule with port 80, protocol "tcp" and external port 8080, and parsing
"2 UDP 53->192.168.1.5:53" yields port 53, protocol "udp" with no
external-port field (it equals the port), the protocol lowercased. -/
theorem parse_round_trip :
    get_existing_rules ["1 TCP 8080->192.168.1.5:80"]
      = .ok [{ port := 80, protocol := "tcp", external_port := some 8080 }]
    ∧ get_existing_rules ["2 UDP 53->192.168.1.5:53"]
      = .ok [{ port := 53, protocol := "udp", external_port := none }] := by
  constructor <;> rfl

/-- C5: with desired rule set {(port 443, tcp, externalPort 8443)} and an
active listing reporting (443, tcp, externalPort 443), the pass treats the
desired rule as missing, issues exactly one apply call for (443, tcp, 8443),
and issues no removal of the existing entry: the full command trace is the
list call followed by that one redirect call. -/
theorem scenario_external_mismatch :
    get_existing_rules ["0 TCP 443->192.168.1.5:443"]
      = .ok [{ port := 443, protocol := "tcp", external_port := none }]
    ∧ open_ports ⟨true, ["0 TCP 443->192.168.1.5:443"]⟩
        (configIter (Config.add [] 443 (some 8443) "tcp"))
      = ([["upnpc", "-l"], ["upnpc", "-r", "443", "8443", "tcp"]],
         .ok [{ port := 443, protocol := "tcp", external_port := some 8443 }]) := by
  constructor <;> rfl

/-- C6 counterexample: the line "1->" does not match the shape the claim
says selects lines (optional index, protocol, externalPort->anything:port),
yet `get_existing_rules` does not ignore it: the coarse filter `.*\d->`
keeps it and parsing it raises (IndexError), refuting "every line not
matching that shape is ignored and causes no fault". -/
theorem noise_counterexample :
    specLineShape "1->" = false
    ∧ keepMatch ("1->").data = true
    ∧ get_existing_rules ["1->"] = .error .indexError := by
  refine ⟨rfl, rfl, rfl⟩

/-- C6 amended: line selection uses only the coarse filter `.*\d->` (a digit
immediately followed by "->"): a line not containing that is ignored — it
contributes no rule and causes no fault — wherever it occurs; lines the
coarse filter keeps are parsed and may fault. -/
theorem noise_ignored (pre post : List String) (l : String)
    (h : keepMatch l.data = false) :
    get_existing_rules (pre ++ l :: post) = get_existing_rules (pre ++ post) := by
  simp [get_existing_rules, List.filter_append, h]

/-- Witness for the amended C6 at concrete input: inserting the non-matching
line "No IGD found" leaves the parse of a one-rule listing unchanged. -/
theorem noise_ignored_witness :
    get_existing_rules ["1 TCP 8080->192.168.1.5:80", "No IGD found"]
      = get_existing_rules ["1 TCP 8080->192.168.1.5:80"] :=
  noise_ignored ["1 TCP 8080->192.168.1.5:80"] [] "No IGD found" (by rfl)

/-- C1: for every non-empty desired rule set, if the single list call of a
pass returns a listing already containing every desired rule — membership on
the `(port, protocol, externalPort)` triple with the external port defaulting
to the port on both sides — then the pass issues zero apply calls (its
command trace is the list call alone) and returns an empty applied sequence. -/
theorem reconcile_idempotent (m : RulesMap) (env : Env) (existing : List Rule)
    (hm : m ≠ [])
    (htool : env.toolAvailable = true)
    (hlist : get_existing_rules env.listOutput = .ok existing)
    (hsat : ∀ r ∈ configIter m, ∃ a ∈ existing,
      a.port = r.port ∧ a.protocol = r.protocol ∧ extPort a = extPort r) :
    open_ports env (configIter m) = ([listCommand], .ok []) := by
  have hmem : ∀ r ∈ configIter m, r ∈ existing := by
    intro r hrmem
    obtain ⟨a, hamem, hp, hpr, he⟩ := hsat r hrmem
    have ha := get_existing_rules_norm _ _ hlist a hamem
    have hr := configIter_norm m r hrmem
    have heq : a = r := rule_eq_of_norm a r ha hr hp hpr he
    exact heq ▸ hamem
  simp only [open_ports, htool, if_true, hlist]
  simp
  exact hmem

/-- Witness for C1: a one-rule set whose rule the listing already reports. -/
theorem reconcile_idempotent_witness :
    open_ports ⟨true, ["0 TCP 8080->192.168.1.5:80"]⟩
      (configIter (Config.add [] 80 (some 8080) "tcp"))
      = ([listCommand], .ok []) :=
  reconcile_idempotent (Config.add [] 80 (some 8080) "tcp")
    ⟨true, ["0 TCP 8080->192.168.1.5:80"]⟩
    [{ port := 80, protocol := "tcp", external_port := some 8080 }]
    (by decide) rfl (by decide) (by decide)

/-- C2: against an empty active listing, a pass applies every desired rule:
the trace is the list call followed by one redirect call per rule in the rule
set's iteration order, the applied sequence is the iterated rule set itself
(hence exactly N calls for N stored rules), and each call carries the port,
the protocol, and the external port exactly when the rule carries one, which
happens only when it differs from the port. -/
theorem reconcile_converges (m : RulesMap) (env : Env)
    (htool : env.toolAvailable = true)
    (hlist : get_existing_rules env.listOutput = .ok []) :
    open_ports env (configIter m)
      = (listCommand :: (configIter m).map applyCommand, .ok (configIter m))
    ∧ (configIter m).length = m.length
    ∧ ∀ r ∈ configIter m,
        applyCommand r
          = ["upnpc", "-r", toString r.port]
              ++ (match r.external_port with
                  | some e => [toString e]
                  | none => []) ++ [r.protocol]
        ∧ ∀ e, r.external_port = some e → e ≠ r.port := by
  refine ⟨?_, ?_, ?_⟩
  · simp [open_ports, htool, hlist]
  · simp [configIter]
  · exact fun r hr => ⟨rfl, configIter_norm m r hr⟩

/-- Witness for C2: two desired rules and an empty listing. -/
theorem reconcile_converges_witness :
    open_ports ⟨true, [""]⟩
      (configIter (Config.add (Config.add [] 80 (some 8080) "tcp") 53 none "udp"))
      = (listCommand
          :: (configIter (Config.add (Config.add [] 80 (some 8080) "tcp") 53 none "udp")).map
              applyCommand,
         .ok (configIter (Config.add (Config.add [] 80 (some 8080) "tcp") 53 none "udp")))
    ∧ (configIter (Config.add (Config.add [] 80 (some 8080) "tcp") 53 none "udp")).length
        = (Config.add (Config.add [] 80 (some 8080) "tcp") 53 none "udp").length
    ∧ ∀ r ∈ configIter (Config.add (Config.add [] 80 (some 8080) "tcp") 53 none "udp"),
        applyCommand r
          = ["upnpc", "-r", toString r.port]
              ++ (match r.external_port with
                  | some e => [toString e]
                  | none => []) ++ [r.protocol]
        ∧ ∀ e, r.external_port = some e → e ≠ r.port :=
  reconcile_converges (Config.add (Config.add [] 80 (some 8080) "tcp") 53 none "udp")
    ⟨true, [""]⟩ rfl (by decide)

/-- C4: whatever the desired rules and the environment, a pass invokes the
tool only with the single list operation (`upnpc -l`, exactly once) and with
redirect (`upnpc -r ...`) operations for desired rules; no other operation —
in particular no removal — is ever issued. -/
theorem one_directional_diff (env : Env) (rules : List Rule) :
    ∃ rest, (open_ports env rules).1 = listCommand :: rest
      ∧ (∀ c ∈ rest, (∃ r ∈ rules, c = applyCommand r) ∧ c.get? 1 = some "-r")
      ∧ ((open_ports env rules).1).count listCommand = 1 := by
  have hcount : ∀ rest : List (List String),
      (∀ c ∈ rest, c.get? 1 = some "-r") →
      (listCommand :: rest).count listCommand = 1 := by
    intro rest hall
    rw [List.count_cons_self]
    have : rest.count listCommand = 0 := by
      rw [List.count_eq_zero]
      intro hmem
      have := hall _ hmem
      simp [listCommand] at this
    omega
  unfold open_ports
  cases htool : env.toolAvailable with
  | false =>
    refine ⟨[], rfl, by simp, ?_⟩
    exact hcount [] (by simp)
  | true =>
    simp only [if_true]
    cases hlist : get_existing_rules env.listOutput with
    | error e =>
      refine ⟨[], rfl, by simp, ?_⟩
      exact hcount [] (by simp)
    | ok existing =>
      simp only
      refine ⟨(rules.filter (fun r => !(existing.contains r))).map applyCommand,
        rfl, ?_, ?_⟩
      · intro c hc
        simp only [List.mem_map] at hc
        obtain ⟨r, hr, rfl⟩ := hc
        exact ⟨⟨r, List.mem_of_mem_filter hr, rfl⟩, by simp [applyCommand]⟩
      · apply hcount
        intro c hc
        simp only [List.mem_map] at hc
        obtain ⟨r, _, rfl⟩ := hc
        simp [applyCommand]

/-- C7: when some kept line (every kept line having its five token
positions) has a token at the external-port or internal-port position that
is no integer, `get_existing_rules` propagates `ValueError` — the spec's
`ProtocolParseError` — and returns no rule sequence at all: the line is not
skipped. -/
theorem parse_failure_fatal (output : List String)
    (hidx : ∀ l ∈ output, keepMatch l.data = true → 4 < (lineTokens l).length)
    (hbad : ∃ l ∈ output, keepMatch l.data = true
      ∧ (pyInt ((lineTokens l).getD 4 "") = none
          ∨ pyInt ((lineTokens l).getD 2 "") = none)) :
    get_existing_rules output = .error .valueError := by
  unfold get_existing_rules
  apply exceptMapM_error
  · intro l hl
    rw [List.mem_filter] at hl
    exact parseLine_ok_or_valueError l (hidx l hl.1 hl.2)
  · obtain ⟨l, hl, hkeep, hb⟩ := hbad
    refine ⟨l, List.mem_filter.mpr ⟨hl, hkeep⟩, ?_⟩
    intro y hy
    rw [parseLine_valueError l (hidx l hl hkeep) hb] at hy
    cases hy

/-- Witness for C7: a listing whose one kept line has "8x" in the
internal-port position. -/
theorem parse_failure_fatal_witness :
    get_existing_rules ["noise", "1 TCP 99->y:8x"] = .error .valueError :=
  parse_failure_fatal ["noise", "1 TCP 99->y:8x"] (by decide) (by decide)

/-- C8: when the tool executable cannot be located, a pass's list call fails
with the one `toolUnavailable` fault kind — distinct from every parse fault —
the pass attempts zero apply calls (its trace is the list attempt alone), and
the run loop, which catches only `KeyboardInterrupt`, ends with that faulting
pass: no later event runs. -/
theorem tool_unavailable_fatal (m : RulesMap) (env : Env) (rest : List Event)
    (h : env.toolAvailable = false) :
    open_ports env (configIter m) = ([listCommand], .error .toolUnavailable)
    ∧ runTrace m (.pass env :: rest) = [(m, [listCommand], .error .toolUnavailable)]
    ∧ (∀ c ∈ (open_ports env (configIter m)).1, ¬ c.get? 1 = some "-r")
    ∧ (∀ e, (Fault.toolUnavailable : Fault) ≠ .protocolParseError e) := by
  have hop : open_ports env (configIter m) = ([listCommand], .error .toolUnavailable) := by
    simp [open_ports, h]
  refine ⟨hop, ?_, ?_, ?_⟩
  · simp [runTrace, hop]
  · rw [hop]
    intro c hc
    simp at hc
    subst hc
    simp [listCommand]
  · intro e he
    cases he

/-- Witness for C8: one desired rule, the executable missing. -/
theorem tool_unavailable_fatal_witness :
    open_ports ⟨false, []⟩ (configIter (Config.add [] 80 none "tcp"))
      = ([listCommand], .error .toolUnavailable)
    ∧ runTrace (Config.add [] 80 none "tcp") [.pass ⟨false, []⟩]
      = [(Config.add [] 80 none "tcp", [listCommand], .error .toolUnavailable)]
    ∧ (∀ c ∈ (open_ports ⟨false, []⟩ (configIter (Config.add [] 80 none "tcp"))).1,
        ¬ c.get? 1 = some "-r")
    ∧ (∀ e, (Fault.toolUnavailable : Fault) ≠ .protocolParseError e) :=
  tool_unavailable_fatal (Config.add [] 80 none "tcp") ⟨false, []⟩ [] rfl

/-- C9: a malformed desired-state file is fatal and never partially applied:
every reconciliation pass in any run reads either the initial complete rule
set or the complete result of some successful reload — never the partial map
a failed `parse_rules` leaves behind — and a failing reload stops the run at
once, before any further pass. -/
theorem reload_atomicity (m0 : RulesMap) (evs : List Event) :
    (∀ p ∈ runTrace m0 evs,
      p.1 = m0 ∨ ∃ inp, Event.reload inp ∈ evs ∧ reloadOk inp = some p.1)
    ∧ (∀ inp rest, evs = Event.reload inp :: rest → reloadOk inp = none →
        runTrace m0 evs = []) := by
  constructor
  · induction evs generalizing m0 with
    | nil => intro p hp; cases hp
    | cons e rest ih =>
      intro p hp
      cases e with
      | interrupt => cases hp
      | reload inp =>
        simp only [runTrace] at hp
        cases hs : reloadStep m0 inp with
        | mk m' died =>
          rw [hs] at hp
          cases died with
          | true => cases hp
          | false =>
            have hok : reloadOk inp = some m' := by
              cases inp with
              | noConfigFound => simp [reloadStep] at hs
              | found c =>
                simp only [reloadStep] at hs
                simp [reloadOk, hs]
            rcases ih m' p hp with h1 | ⟨inp', hmem, hok'⟩
            · exact Or.inr ⟨inp, List.mem_cons_self _ _, h1 ▸ hok⟩
            · exact Or.inr ⟨inp', List.mem_cons_of_mem _ hmem, hok'⟩
      | pass env =>
        simp only [runTrace] at hp
        cases ho : open_ports env (configIter m0) with
        | mk cmds res =>
          rw [ho] at hp
          cases res with
          | ok applied =>
            simp only at hp
            rcases List.mem_cons.mp hp with rfl | hmem
            · exact Or.inl rfl
            · rcases ih m0 p hmem with h1 | ⟨inp', hm', hok'⟩
              · exact Or.inl h1
              · exact Or.inr ⟨inp', List.mem_cons_of_mem _ hm', hok'⟩
          | error f =>
            simp only at hp
            rcases List.mem_singleton.mp hp with rfl
            exact Or.inl rfl
  · intro inp rest hevs hnone
    subst hevs
    cases inp with
    | noConfigFound => simp [runTrace, reloadStep]
    | found c =>
      cases hp : parse_rules c with
      | mk m' died =>
        cases died with
        | false => rw [reloadOk, hp] at hnone; cases hnone
        | true => simp [runTrace, reloadStep, hp]

/-- Witness for C9: one stored rule, then a reload whose file has a record
missing the `port` key: the run produces no pass at all. -/
theorem reload_atomicity_witness :
    runTrace [((80, "tcp"), 80)]
      [Event.reload (.found [portlessRecord]), Event.pass ⟨true, []⟩] = [] :=
  (reload_atomicity [((80, "tcp"), 80)]
    [Event.reload (.found [portlessRecord]), Event.pass ⟨true, []⟩]).2
    (.found [portlessRecord]) [Event.pass ⟨true, []⟩] rfl (by decide)

/-- C10: at both public boundaries — rules iterated out of a `Config` and
rules produced by `get_existing_rules` — the `external_port` field is present
exactly when the effective external port differs from the internal port; in
consequence, on such rules structural dict equality (the reconciler's
membership test) coincides with equality of the normalized
`(port, protocol, externalPort)` triple, with no re-derivation of the
default. -/
theorem normalization_boundaries (m : RulesMap) (output : List String)
    (rs : List Rule) (h : get_existing_rules output = .ok rs) :
    (∀ r ∈ configIter m, r.external_port.isSome = true ↔ extPort r ≠ r.port)
    ∧ (∀ r ∈ rs, r.external_port.isSome = true ↔ extPort r ≠ r.port)
    ∧ (∀ a r, (a ∈ configIter m ∨ a ∈ rs) → (r ∈ configIter m ∨ r ∈ rs) →
        (a = r ↔ a.port = r.port ∧ a.protocol = r.protocol ∧ extPort a = extPort r)) := by
  have norm : ∀ r : Rule, (∀ e, r.external_port = some e → e ≠ r.port) →
      (r.external_port.isSome = true ↔ extPort r ≠ r.port) := by
    intro r hn
    cases hre : r.external_port with
    | none => simp [extPort, hre]
    | some e => simp [extPort, hre, hn e hre]
  have hof : ∀ r : Rule, (r ∈ configIter m ∨ r ∈ rs) →
      ∀ e, r.external_port = some e → e ≠ r.port := by
    rintro r (hr | hr)
    · exact configIter_norm m r hr
    · exact get_existing_rules_norm output rs h r hr
  refine ⟨fun r hr => norm r (configIter_norm m r hr),
    fun r hr => norm r (get_existing_rules_norm output rs h r hr), ?_⟩
  intro a r hain hrin
  constructor
  · rintro rfl; exact ⟨rfl, rfl, rfl⟩
  · rintro ⟨hp, hpr, he⟩
    exact rule_eq_of_norm a r (hof a hain) (hof r hrin) hp hpr he

/-- Witness for C10: a one-rule config and a one-line listing. -/
theorem normalization_boundaries_witness :
    (∀ r ∈ configIter [((80, "tcp"), 8080)],
      r.external_port.isSome = true ↔ extPort r ≠ r.port)
    ∧ (∀ r ∈ [({ port := 53, protocol := "udp", external_port := none } : Rule)],
      r.external_port.isSome = true ↔ extPort r ≠ r.port)
    ∧ (∀ a r, (a ∈ configIter [((80, "tcp"), 8080)]
          ∨ a ∈ [({ port := 53, protocol := "udp", external_port := none } : Rule)]) →
        (r ∈ configIter [((80, "tcp"), 8080)]
          ∨ r ∈ [({ port := 53, protocol := "udp", external_port := none } : Rule)]) →
        (a = r ↔ a.port = r.port ∧ a.protocol = r.protocol ∧ extPort a = extPort r)) :=
  normalization_boundaries [((80, "tcp"), 8080)] ["2 UDP 53->192.168.1.5:53"]
    [{ port := 53, protocol := "udp", external_port := none }] (by decide)

end Upnpport
